import Mathlib

/-!
Shallow embedding of `src/download_samples.py`, the bounded-concurrency
malware-sample acquisition pipeline.

The embedding has three layers:

* `AdmState` / `admission` — the atomic admission decision taken under
  `download_count_lock` in `fetch_and_process_hashes` (lines 383-401 of the
  source), as a pure function on the shared counters.

* `Sys` / `Step` / `Reach` — a small-step interleaving model of the shared
  counters.  Each `Step` constructor is one critical section of the source:
  the admission check, the `downloaded_count += 1` block in `download_file`,
  the `failed_count += 1` block, the skipped-existing statistics update, and
  the guarded `pending_downloads_count` decrement in the `finally` block of
  `process_hash_entry`.  Two ghost fields (`unrecorded`, `recorded`) count
  admitted tasks before/after their outcome has been recorded, so that the
  interleaving window between the success record of a task and its pending
  decrement is expressible.

* Pure functional models of the sequential helpers: `fetch_hashes_page`,
  `get_download_link`, `download_file`, `process_hash_entry`, the page-batch
  filter and the page loop of `fetch_and_process_hashes`, each driven by an
  environment listing the outcome of every network attempt.
-/

namespace DownloadSamples

/-- `MAX_RETRIES = 3` from the source configuration block. -/
def MAX_RETRIES : Nat := 3

/-! ### Admission state and the atomic admission decision -/

/-- The globals guarded by `download_count_lock`: `downloaded_count`,
`pending_downloads_count` and `should_stop` (source lines 113-127).
`pending_downloads_count` is an integer in Python; it is modelled as `Int`
so that non-negativity is a statement, not a typing artefact. -/
structure AdmState where
  downloaded_count : Nat
  pending_downloads_count : Int
  should_stop : Bool
deriving Repr, DecidableEq

/-- The admission critical section of `fetch_and_process_hashes`
(source lines 384-401), executed under `download_count_lock` for one entry:
if `should_stop` refuse; else if a limit is set and
`downloaded_count + pending_downloads_count >= MAX_DOWNLOAD` set
`should_stop` and refuse; else increment `pending_downloads_count` and
approve the submission.  Returns (submit_this_task, new state). -/
def admission (MAX_DOWNLOAD : Option Nat) (s : AdmState) : Bool × AdmState :=
  if s.should_stop then
    (false, s)
  else
    match MAX_DOWNLOAD with
    | some m =>
        if (s.downloaded_count : Int) + s.pending_downloads_count ≥ (m : Int) then
          (false, { s with should_stop := true })
        else
          (true, { s with pending_downloads_count := s.pending_downloads_count + 1 })
    | none =>
        (true, { s with pending_downloads_count := s.pending_downloads_count + 1 })

/-! ### Interleaving model of the shared counters -/

/-- Full shared-counter state plus ghost task-phase counters.
`failed_count` and `skipped_existing_count` are the other two outcome
counters of the source.  `unrecorded` counts admitted worker tasks that have
not yet recorded an outcome (success / final failure / skipped-existing, or
that will record none at all); `recorded` counts tasks whose outcome has
been recorded but whose `finally` block has not yet decremented
`pending_downloads_count`. -/
structure Sys where
  adm : AdmState
  failed_count : Nat
  skipped_existing_count : Nat
  unrecorded : Nat
  recorded : Nat
deriving Repr, DecidableEq

/-- All counters zero, `should_stop = false`: the state at the top of
`fetch_and_process_hashes`. -/
def Sys.init : Sys :=
  { adm := { downloaded_count := 0, pending_downloads_count := 0, should_stop := false }
    failed_count := 0
    skipped_existing_count := 0
    unrecorded := 0
    recorded := 0 }

/-- The guarded decrement of `pending_downloads_count` in the `finally`
block of `process_hash_entry` (source lines 315-321): decrement only when
the counter is positive. -/
def guardedDec (p : Int) : Int :=
  if p > 0 then p - 1 else p

/-- One critical section of the source, as an atomic step.  Constructors:

* `approve` — the admission check admitted the entry (incremented
  `pending_downloads_count`, source line 399); a fresh task starts.
* `refuseLimit` — the admission check refused: either `should_stop` was
  already set (source line 391, state unchanged) or the limit was reached
  and `should_stop` was set (source line 397).
* `recSuccess` — the `downloaded_count += 1` block of `download_file`
  (source lines 250-253), by a task that had not yet recorded an outcome.
* `recFailure` — the `failed_count += 1` block of `download_file`
  (source lines 269-270).
* `recSkipped` — the skipped-existing statistics update of `download_file`
  (source lines 226-229, via `update_statistics`).
* `finish` — the `finally` block of `process_hash_entry` for a task whose
  outcome was recorded: guarded decrement of `pending_downloads_count`.
* `finishNoRecord` — the same `finally` block for a task that recorded no
  outcome (link resolution failed, source lines 307-309, or an internal
  exception caught at line 311). -/
inductive Step (MAX_DOWNLOAD : Option Nat) : Sys → Sys → Prop
  | approve (s : Sys) (a' : AdmState) :
      admission MAX_DOWNLOAD s.adm = (true, a') →
      Step MAX_DOWNLOAD s { s with adm := a', unrecorded := s.unrecorded + 1 }
  | refuseLimit (s : Sys) (a' : AdmState) :
      admission MAX_DOWNLOAD s.adm = (false, a') →
      Step MAX_DOWNLOAD s { s with adm := a' }
  | recSuccess (s : Sys) (u : Nat) :
      s.unrecorded = u + 1 →
      Step MAX_DOWNLOAD s
        { s with
            adm := { s.adm with downloaded_count := s.adm.downloaded_count + 1 }
            unrecorded := u
            recorded := s.recorded + 1 }
  | recFailure (s : Sys) (u : Nat) :
      s.unrecorded = u + 1 →
      Step MAX_DOWNLOAD s
        { s with
            failed_count := s.failed_count + 1
            unrecorded := u
            recorded := s.recorded + 1 }
  | recSkipped (s : Sys) (u : Nat) :
      s.unrecorded = u + 1 →
      Step MAX_DOWNLOAD s
        { s with
            skipped_existing_count := s.skipped_existing_count + 1
            unrecorded := u
            recorded := s.recorded + 1 }
  | finish (s : Sys) (r : Nat) :
      s.recorded = r + 1 →
      Step MAX_DOWNLOAD s
        { s with
            adm := { s.adm with
                       pending_downloads_count := guardedDec s.adm.pending_downloads_count }
            recorded := r }
  | finishNoRecord (s : Sys) (u : Nat) :
      s.unrecorded = u + 1 →
      Step MAX_DOWNLOAD s
        { s with
            adm := { s.adm with
                       pending_downloads_count := guardedDec s.adm.pending_downloads_count }
            unrecorded := u }

/-- Reachability from the initial state by interleaved critical sections. -/
inductive Reach (MAX_DOWNLOAD : Option Nat) : Sys → Prop
  | init : Reach MAX_DOWNLOAD Sys.init
  | step {s s' : Sys} : Reach MAX_DOWNLOAD s → Step MAX_DOWNLOAD s s' →
      Reach MAX_DOWNLOAD s'

/-! ### Feed entries and the page fetch -/

/-- One feed record.  Only the `sha256` field matters to the claims; it may
be absent (`entry.get` returning `None` for the sha256 key). -/
structure Entry where
  sha256 : Option String
deriving Repr, DecidableEq

/-- Outcome of one HTTP attempt inside `fetch_hashes_page`:
`ok d` is a successful request whose body decoded as JSON, with `d` the
value of the `data` key when it is present and a list (`none` when the
structure is malformed); `decodeError` is a successful request with an
undecodable body (`json.JSONDecodeError`); `reqError` is a
`requests.exceptions.RequestException` (network error, timeout or bad HTTP
status raised by `raise_for_status`). -/
inductive FeedAttempt
  | ok (data : Option (List Entry))
  | decodeError
  | reqError
deriving Repr, DecidableEq

/-- Return value of `fetch_hashes_page` together with how many HTTP
attempts the loop made.  `page = none` models the Python `None` (error);
`page = some l` models a returned dict whose `data` list is `l`. -/
structure FeedFetch where
  page : Option (List Entry)
  attemptsMade : Nat
deriving Repr, DecidableEq

/-- `fetch_hashes_page` (source lines 163-191), driven by the list of
outcomes of its successive HTTP attempts (the callers pass a list of length
`MAX_RETRIES + 1`, one potential outcome per loop iteration):

* a decodable body with a proper `data` list is returned at once;
* a decodable body with a malformed structure returns a dict whose data
  list is empty, at once (line 179);
* an undecodable body returns `None` at once (line 183);
* a request error is retried while attempts remain, and returns `None`
  on the final attempt (line 190). -/
def fetch_hashes_page : List FeedAttempt → FeedFetch
  | [] => ⟨none, 0⟩
  | [a] =>
    match a with
    | .ok (some l) => ⟨some l, 1⟩
    | .ok none => ⟨some [], 1⟩
    | .decodeError => ⟨none, 1⟩
    | .reqError => ⟨none, 1⟩
  | a :: rest =>
    match a with
    | .ok (some l) => ⟨some l, 1⟩
    | .ok none => ⟨some [], 1⟩
    | .decodeError => ⟨none, 1⟩
    | .reqError =>
      let r := fetch_hashes_page rest
      ⟨r.page, r.attemptsMade + 1⟩

/-! ### Link resolution -/

/-- Outcome of one HTTP attempt inside `get_download_link`:
`ok p` is a non-404 success whose JSON body has `p` as its `file_path`
value (`none` when the key is absent); `notFound` is an HTTP 404;
`decodeError` is a success with an undecodable body; `reqError` is a
`RequestException`. -/
inductive LinkAttempt
  | ok (file_path : Option String)
  | notFound
  | decodeError
  | reqError
deriving Repr, DecidableEq

/-- Return value of `get_download_link` with the number of HTTP attempts
made. -/
structure LinkFetch where
  link : Option String
  attemptsMade : Nat
deriving Repr, DecidableEq

/-- `get_download_link` (source lines 193-219): a 404 returns `None` at
once with no retry (lines 202-204); a decodable success returns
the file_path value of the body (line 207); an undecodable body returns `None` at
once (lines 215-218); a request error is retried while attempts remain and
returns `None` on the final attempt. -/
def get_download_link : List LinkAttempt → LinkFetch
  | [] => ⟨none, 0⟩
  | [a] =>
    match a with
    | .ok p => ⟨p, 1⟩
    | .notFound => ⟨none, 1⟩
    | .decodeError => ⟨none, 1⟩
    | .reqError => ⟨none, 1⟩
  | a :: rest =>
    match a with
    | .ok p => ⟨p, 1⟩
    | .notFound => ⟨none, 1⟩
    | .decodeError => ⟨none, 1⟩
    | .reqError =>
      let r := get_download_link rest
      ⟨r.link, r.attemptsMade + 1⟩

/-! ### The byte fetch (`download_file`) -/

/-- Outcome of one byte-fetch attempt inside `download_file`:
`success size` streams the whole body (`size` bytes) to the destination
file; `failure partialWritten` raises a `RequestException`, with
`partialWritten = true` when some bytes had already reached the
destination file before the error. -/
inductive FetchAttempt
  | success (size : Nat)
  | failure (partialWritten : Bool)
deriving Repr, DecidableEq

/-- Effect of one `download_file` call: its return value, the number of
byte-fetch attempts, the increments it applies to `downloaded_count`,
`failed_count` and `skipped_existing_count`, whether the destination file
exists afterwards, and the existence of the destination file at the start
of each byte-fetch attempt (to state that partial files are removed before
a retry). -/
structure DlResult where
  result : Bool
  fetchCalls : Nat
  downloadedInc : Nat
  failedInc : Nat
  skippedInc : Nat
  fileOnDisk : Bool
  diskAtFetchStart : List Bool
deriving Repr, DecidableEq

/-- The retry loop of `download_file` (source lines 232-272), threading the
existence of the destination file.  A successful attempt writes the file,
increments `downloaded_count` under the lock (lines 250-253) and returns
`True`.  A failed attempt removes the destination file when it exists
(lines 257-259); on the final attempt it increments `failed_count` under
the lock (lines 269-270) and returns `False`, otherwise it retries. -/
def downloadLoop (onDisk : Bool) : List FetchAttempt → DlResult
  | [] => ⟨false, 0, 0, 0, 0, onDisk, []⟩
  | [a] =>
    match a with
    | .success _ => ⟨true, 1, 1, 0, 0, true, [onDisk]⟩
    | .failure pw =>
      let diskMid := onDisk || pw
      let diskCleaned := if diskMid then false else diskMid
      ⟨false, 1, 0, 1, 0, diskCleaned, [onDisk]⟩
  | a :: rest =>
    match a with
    | .success _ => ⟨true, 1, 1, 0, 0, true, [onDisk]⟩
    | .failure pw =>
      let diskMid := onDisk || pw
      let diskCleaned := if diskMid then false else diskMid
      let r := downloadLoop diskCleaned rest
      ⟨r.result, r.fetchCalls + 1, r.downloadedInc, r.failedInc, r.skippedInc,
        r.fileOnDisk, onDisk :: r.diskAtFetchStart⟩

/-- `download_file` (source lines 221-272): when the destination file
already exists it only updates the skipped-existing statistic and returns
`True` with no byte-fetch attempt (lines 226-229); otherwise it runs the
retry loop. -/
def download_file (fileExists : Bool) (attempts : List FetchAttempt) : DlResult :=
  if fileExists then ⟨true, 0, 0, 0, 1, true, []⟩
  else downloadLoop fileExists attempts

/-! ### The worker task (`process_hash_entry`) -/

/-- Environment of one worker task: the outcomes of its link-resolution
attempts, whether its destination file already exists, and the outcomes of
its byte-fetch attempts. -/
structure WorkerEnv where
  linkAttempts : List LinkAttempt
  fileExists : Bool
  fetchAttempts : List FetchAttempt
deriving Repr, DecidableEq

/-- Effect of one `process_hash_entry` call: calls made, counter
increments, whether `save_processed_hash` ran, and whether the `finally`
block decrements `pending_downloads_count`. -/
structure WorkerResult where
  linkCalls : Nat
  fetchCalls : Nat
  downloadedInc : Nat
  failedInc : Nat
  skippedInc : Nat
  savedToLog : Bool
  decrementsPending : Bool
deriving Repr, DecidableEq

/-- `process_hash_entry` (source lines 274-321).  A missing `sha256`
returns without touching the counters and without the decrement (line 300).
Otherwise the link is resolved; with no link the task only logs (lines
307-309) and the `finally` block decrements; with a link, `download_file`
runs and, when it returns `True`, `save_processed_hash` is called (lines
305-306); the `finally` block decrements in every case (lines 313-321). -/
def process_hash_entry (sha256 : Option String) (env : WorkerEnv) : WorkerResult :=
  match sha256 with
  | none => ⟨0, 0, 0, 0, 0, false, false⟩
  | some _ =>
    let lr := get_download_link env.linkAttempts
    match lr.link with
    | none => ⟨lr.attemptsMade, 0, 0, 0, 0, false, true⟩
    | some _ =>
      let d := download_file env.fileExists env.fetchAttempts
      ⟨lr.attemptsMade, d.fetchCalls, d.downloadedInc, d.failedInc, d.skippedInc,
        d.result, true⟩

/-! ### Page-batch filtering and the page loop (`fetch_and_process_hashes`) -/

/-- The filtering loop over one fetched page (source lines 349-366) with
`seen` the accumulated `temp_page_seen_hashes`: an entry is dropped when
its hash identifier is absent, when its hash is in the global
`processed_hashes` set, or when its hash was seen earlier in this page;
otherwise it is appended to the submission list and its hash to the
page-local seen set. -/
def buildBatch (processed : List String) (seen : List String) : List Entry → List Entry
  | [] => []
  | e :: rest =>
    match e.sha256 with
    | none => buildBatch processed seen rest
    | some h =>
      if h ∈ processed then buildBatch processed seen rest
      else if h ∈ seen then buildBatch processed seen rest
      else e :: buildBatch processed (h :: seen) rest

/-- `page_hash_list_for_submission` built from one page against the current
`processed_hashes` set (source lines 345-366). -/
def buildPageBatch (processed : List String) (entries : List Entry) : List Entry :=
  buildBatch processed [] entries

/-- Environment of a whole run: the HTTP attempt outcomes of each page
fetch, and the worker environment of each hash. -/
structure RunEnv where
  feed : Nat → List FeedAttempt
  worker : String → WorkerEnv

/-- The module-level mutable state seen by `fetch_and_process_hashes`,
plus the observables the claims mention: `submitted` lists the hashes for
which a worker task was submitted to the executor, in submission order;
`pagesFetched` counts `fetch_hashes_page` calls; `feedError` records that
pagination ended through the fetch-failure branch (source lines 429-431). -/
structure RunState where
  processed_hashes : List String
  downloaded_count : Nat
  pending_downloads_count : Int
  failed_count : Nat
  skipped_existing_count : Nat
  total_hashes_seen : Nat
  should_stop : Bool
  submitted : List String
  pagesFetched : Nat
  feedError : Bool
deriving Repr, DecidableEq

/-- Apply the counter effects of one completed worker task to the run
state, including the guarded `finally` decrement. -/
def applyWorker (w : WorkerResult) (s : RunState) : RunState :=
  { s with
      downloaded_count := s.downloaded_count + w.downloadedInc
      failed_count := s.failed_count + w.failedInc
      skipped_existing_count := s.skipped_existing_count + w.skippedInc
      pending_downloads_count :=
        if w.decrementsPending then guardedDec s.pending_downloads_count
        else s.pending_downloads_count }

/-- The submission loop over one page batch (source lines 380-410), in the
sequential semantics where an admitted task runs to completion before the
next admission check (the interleaved counter behaviour is the `Step`
relation above).  For each entry: the admission critical section runs
(`admission`); if `should_stop` is now set the loop breaks (lines 403-405);
if the task was approved, its hash joins `processed_hashes` (line 408), the
task is submitted (line 409) and runs. -/
def submitLoop (MAX_DOWNLOAD : Option Nat) (env : RunEnv) :
    List Entry → RunState → RunState
  | [], s => s
  | e :: rest, s =>
    let a : AdmState :=
      ⟨s.downloaded_count, s.pending_downloads_count, s.should_stop⟩
    let r := admission MAX_DOWNLOAD a
    let s1 := { s with
                  downloaded_count := r.2.downloaded_count
                  pending_downloads_count := r.2.pending_downloads_count
                  should_stop := r.2.should_stop }
    if s1.should_stop then s1
    else if r.1 then
      match e.sha256 with
      | some h =>
        let s2 := { s1 with
                      processed_hashes := h :: s1.processed_hashes
                      submitted := s1.submitted ++ [h] }
        let s3 := applyWorker (process_hash_entry e.sha256 (env.worker h)) s2
        submitLoop MAX_DOWNLOAD env rest s3
      | none => submitLoop MAX_DOWNLOAD env rest s1
    else submitLoop MAX_DOWNLOAD env rest s1

/-- The page loop of `fetch_and_process_hashes` (source lines 324-434),
with `fuel` bounding the number of iterations of the unbounded `while`.
Each iteration: break when `should_stop` (lines 329-332); fetch the page;
a fetch error breaks with a feed error logged (lines 429-431); an empty
data list breaks as feed exhaustion (lines 339-341); otherwise count the
raw entries, build the batch, advance to the next page when the batch is
empty (lines 371-375), else run the submission loop, wait for the tasks,
and break when `should_stop` was set (lines 421-424). -/
def runPages (MAX_DOWNLOAD : Option Nat) (env : RunEnv) :
    Nat → Nat → RunState → RunState
  | 0, _, s => s
  | fuel + 1, page, s =>
    if s.should_stop then s
    else
      let f := fetch_hashes_page (env.feed page)
      let s0 := { s with pagesFetched := s.pagesFetched + 1 }
      match f.page with
      | none => { s0 with feedError := true }
      | some [] => s0
      | some (e :: es) =>
        let entries := e :: es
        let s1 := { s0 with
                      total_hashes_seen := s0.total_hashes_seen + entries.length }
        let batch := buildPageBatch s1.processed_hashes entries
        if batch.isEmpty then
          runPages MAX_DOWNLOAD env fuel (page + 1) s1
        else
          let s2 := submitLoop MAX_DOWNLOAD env batch s1
          if s2.should_stop then s2
          else runPages MAX_DOWNLOAD env fuel (page + 1) s2

/-- The run state at the top of `__main__` after `processed_hashes` was
seeded from the durable log (source lines 447-448), with `should_stop` set
when `MAX_DOWNLOAD == 0` (source lines 454-457). -/
def initRunState (MAX_DOWNLOAD : Option Nat) (initialLog : List String) : RunState :=
  { processed_hashes := initialLog
    downloaded_count := 0
    pending_downloads_count := 0
    failed_count := 0
    skipped_existing_count := 0
    total_hashes_seen := 0
    should_stop := MAX_DOWNLOAD = some 0
    submitted := []
    pagesFetched := 0
    feedError := false }

/-- Result of the whole `__main__` run: the final run state, whether
`fetch_and_process_hashes` was entered at all (source lines 460-468), and
whether the summary report was produced (the report block, lines 470-552,
runs unconditionally). -/
structure MainResult where
  final : RunState
  fetchStarted : Bool
  reportProduced : Bool
deriving Repr, DecidableEq

/-- The `__main__` control flow (source lines 438-552): seed the processed
set, set `should_stop` when the limit is zero, skip
`fetch_and_process_hashes` when `should_stop` is already set, and always
produce the report. -/
def mainRun (MAX_DOWNLOAD : Option Nat) (env : RunEnv) (initialLog : List String)
    (fuel : Nat) : MainResult :=
  let s0 := initRunState MAX_DOWNLOAD initialLog
  if s0.should_stop then
    ⟨s0, false, true⟩
  else
    ⟨runPages MAX_DOWNLOAD env fuel 1 s0, true, true⟩

/-! ### Concrete states and environments used in counterexamples -/

/-- State after the admission of one task under `MAX_DOWNLOAD = 1`: one
task in flight, nothing recorded yet. -/
def c1Mid : Sys :=
  { adm := { downloaded_count := 0, pending_downloads_count := 1, should_stop := false }
    failed_count := 0
    skipped_existing_count := 0
    unrecorded := 1
    recorded := 0 }

/-- State after that task ran the `downloaded_count += 1` block of
`download_file` but before its `finally` block decremented
`pending_downloads_count`. -/
def c1Cex : Sys :=
  { adm := { downloaded_count := 1, pending_downloads_count := 1, should_stop := false }
    failed_count := 0
    skipped_existing_count := 0
    unrecorded := 0
    recorded := 1 }

/-- Worker environment whose destination file already exists: link
resolution succeeds, no byte-fetch outcomes are needed. -/
def c3Env : WorkerEnv :=
  { linkAttempts := [LinkAttempt.ok (some "https://example.invalid/f")]
    fileExists := true
    fetchAttempts := [] }

/-- Worker environment whose link resolution returns HTTP 404 on the first
attempt while later attempts would have succeeded, with a byte fetch that
would succeed if it were ever tried. -/
def c4Env : WorkerEnv :=
  { linkAttempts := [LinkAttempt.notFound, LinkAttempt.ok (some "u"),
      LinkAttempt.ok (some "u"), LinkAttempt.ok (some "u")]
    fileExists := false
    fetchAttempts := [FetchAttempt.success 7] }

/-- A full page-fetch budget (`MAX_RETRIES + 1 = 4` attempts) whose first
attempt returns an undecodable body and whose remaining attempts would all
succeed. -/
def c7Attempts : List FeedAttempt :=
  [FeedAttempt.decodeError, FeedAttempt.ok (some []), FeedAttempt.ok (some []),
    FeedAttempt.ok (some [])]

/-- The byte-fetch scenario of the spec: two mid-stream failures that leave
partial files, then a success, within the retry budget. -/
def c8Scenario : List FetchAttempt :=
  [FetchAttempt.failure true, FetchAttempt.failure true, FetchAttempt.success 100]

/-- Run environment whose every page fetch decodes but lacks a proper data
list, used for the C10 witness. -/
def c10Env : RunEnv :=
  { feed := fun _ => [FeedAttempt.ok none]
    worker := fun _ => { linkAttempts := [], fileExists := false, fetchAttempts := [] } }

/-! ### Helper lemmas -/

lemma admission_true_cases {m : Option Nat} {s a' : AdmState}
    (h : admission m s = (true, a')) :
    s.should_stop = false ∧
    a' = { s with pending_downloads_count := s.pending_downloads_count + 1 } ∧
    ∀ l, m = some l → (s.downloaded_count : Int) + s.pending_downloads_count < l := by
  by_cases hs : s.should_stop
  · simp [admission, hs] at h
  · cases m with
    | none =>
      simp only [admission, hs, if_false, Bool.false_eq_true, Prod.mk.injEq,
        true_and] at h
      have hs' : s.should_stop = false := by simpa using hs
      exact ⟨hs', by rw [hs']; exact h.symm, by simp⟩
    | some l =>
      by_cases hl : (s.downloaded_count : Int) + s.pending_downloads_count ≥ (l : Int)
      · simp [admission, hs, hl] at h
      · simp only [admission, hs, if_false, Bool.false_eq_true, hl,
          Prod.mk.injEq, true_and] at h
        have hs' : s.should_stop = false := by simpa using hs
        refine ⟨hs', by rw [hs']; exact h.symm, ?_⟩
        rintro l' hl'
        injection hl' with hll
        subst hll
        omega

lemma admission_false_cases {m : Option Nat} {s a' : AdmState}
    (h : admission m s = (false, a')) :
    a'.downloaded_count = s.downloaded_count ∧
    a'.pending_downloads_count = s.pending_downloads_count ∧
    a'.should_stop = true := by
  by_cases hs : s.should_stop
  · simp only [admission, hs, if_true, Prod.mk.injEq, true_and] at h
    rw [← h]
    exact ⟨rfl, rfl, hs⟩
  · cases m with
    | none => simp [admission, hs] at h
    | some l =>
      by_cases hl : (s.downloaded_count : Int) + s.pending_downloads_count ≥ (l : Int)
      · simp only [admission, hs, if_false, Bool.false_eq_true, hl, if_true,
          Prod.mk.injEq, true_and] at h
        rw [← h]
        exact ⟨rfl, rfl, rfl⟩
      · simp [admission, hs, hl] at h

lemma guardedDec_pos {p : Int} (h : 0 < p) : guardedDec p = p - 1 := by
  simp [guardedDec, h]

/-- The inductive invariant of the interleaving model:
`pending_downloads_count` equals the number of admitted tasks not yet past
their `finally` decrement, and with a configured limit the sum of
`downloaded_count` and the number of admitted tasks with no recorded
outcome never exceeds the limit. -/
def SysInv (MAX_DOWNLOAD : Option Nat) (s : Sys) : Prop :=
  s.adm.pending_downloads_count = (s.unrecorded : Int) + (s.recorded : Int) ∧
  ∀ l, MAX_DOWNLOAD = some l → s.adm.downloaded_count + s.unrecorded ≤ l

lemma sysInv_init (m : Option Nat) : SysInv m Sys.init := by
  constructor
  · simp [Sys.init]
  · intro l _
    simp [Sys.init]

lemma sysInv_step {m : Option Nat} {s s' : Sys}
    (hi : SysInv m s) (hs : Step m s s') : SysInv m s' := by
  obtain ⟨hp, hl⟩ := hi
  cases hs with
  | approve a' h =>
    obtain ⟨-, ha', hlt⟩ := admission_true_cases h
    subst ha'
    refine ⟨?_, ?_⟩
    · dsimp only
      push_cast
      omega
    · intro l hm
      have h1 := hl l hm
      have h2 := hlt l hm
      dsimp only
      omega
  | refuseLimit a' h =>
    obtain ⟨hd, hpend, -⟩ := admission_false_cases h
    refine ⟨?_, ?_⟩
    · dsimp only
      rw [hpend]
      exact hp
    · intro l hm
      dsimp only
      rw [hd]
      exact hl l hm
  | recSuccess u hu =>
    refine ⟨?_, ?_⟩
    · dsimp only
      omega
    · intro l hm
      have := hl l hm
      dsimp only
      omega
  | recFailure u hu =>
    refine ⟨?_, ?_⟩
    · dsimp only
      omega
    · intro l hm
      have := hl l hm
      dsimp only
      omega
  | recSkipped u hu =>
    refine ⟨?_, ?_⟩
    · dsimp only
      omega
    · intro l hm
      have := hl l hm
      dsimp only
      omega
  | finish r hr =>
    have hpos : 0 < s.adm.pending_downloads_count := by omega
    refine ⟨?_, ?_⟩
    · dsimp only
      rw [guardedDec_pos hpos]
      omega
    · intro l hm
      dsimp only
      exact hl l hm
  | finishNoRecord u hu =>
    have hpos : 0 < s.adm.pending_downloads_count := by omega
    refine ⟨?_, ?_⟩
    · dsimp only
      rw [guardedDec_pos hpos]
      omega
    · intro l hm
      have := hl l hm
      dsimp only
      omega

lemma sysInv_reach {m : Option Nat} {s : Sys} (h : Reach m s) : SysInv m s := by
  induction h with
  | init => exact sysInv_init m
  | step _ hstep ih => exact sysInv_step ih hstep

lemma get_download_link_notFound (rest : List LinkAttempt) :
    get_download_link (LinkAttempt.notFound :: rest) = ⟨none, 1⟩ := by
  cases rest <;> rfl

lemma fetch_hashes_page_malformed (rest : List FeedAttempt) :
    fetch_hashes_page (FeedAttempt.ok none :: rest) = ⟨some [], 1⟩ := by
  cases rest <;> rfl

lemma fetch_hashes_page_decodeError (rest : List FeedAttempt) :
    fetch_hashes_page (FeedAttempt.decodeError :: rest) = ⟨none, 1⟩ := by
  cases rest <;> rfl

lemma fetch_hashes_page_emptyData (rest : List FeedAttempt) :
    fetch_hashes_page (FeedAttempt.ok (some []) :: rest) = ⟨some [], 1⟩ := by
  cases rest <;> rfl

lemma downloadLoop_success (onDisk : Bool) (n : Nat) (rest : List FetchAttempt) :
    downloadLoop onDisk (FetchAttempt.success n :: rest) =
      ⟨true, 1, 1, 0, 0, true, [onDisk]⟩ := by
  cases rest <;> rfl

lemma downloadLoop_failure_last (pw : Bool) :
    downloadLoop false [FetchAttempt.failure pw] = ⟨false, 1, 0, 1, 0, false, [false]⟩ := by
  cases pw <;> rfl

lemma downloadLoop_failure_cons (pw : Bool) (a : FetchAttempt) (rest : List FetchAttempt) :
    downloadLoop false (FetchAttempt.failure pw :: a :: rest) =
      ⟨(downloadLoop false (a :: rest)).result,
        (downloadLoop false (a :: rest)).fetchCalls + 1,
        (downloadLoop false (a :: rest)).downloadedInc,
        (downloadLoop false (a :: rest)).failedInc,
        (downloadLoop false (a :: rest)).skippedInc,
        (downloadLoop false (a :: rest)).fileOnDisk,
        false :: (downloadLoop false (a :: rest)).diskAtFetchStart⟩ := by
  cases pw <;> rfl

lemma downloadLoop_disk_false (attempts : List FetchAttempt) :
    ∀ b ∈ (downloadLoop false attempts).diskAtFetchStart, b = false := by
  induction attempts with
  | nil => simp [downloadLoop]
  | cons a rest ih =>
    cases a with
    | success n =>
      rw [downloadLoop_success]
      simp
    | failure pw =>
      cases rest with
      | nil =>
        rw [downloadLoop_failure_last]
        simp
      | cons a2 t =>
        rw [downloadLoop_failure_cons]
        intro b hb
        rcases List.mem_cons.mp hb with rfl | hb2
        · rfl
        · exact ih b hb2

lemma downloadLoop_result_true (attempts : List FetchAttempt)
    (h : (downloadLoop false attempts).result = true) :
    (downloadLoop false attempts).downloadedInc = 1 ∧
    (downloadLoop false attempts).fileOnDisk = true := by
  induction attempts with
  | nil => simp [downloadLoop] at h
  | cons a rest ih =>
    cases a with
    | success n =>
      rw [downloadLoop_success]
      exact ⟨rfl, rfl⟩
    | failure pw =>
      cases rest with
      | nil =>
        rw [downloadLoop_failure_last] at h
        simp at h
      | cons a2 t =>
        rw [downloadLoop_failure_cons] at h ⊢
        exact ih h

lemma downloadLoop_result_false (attempts : List FetchAttempt)
    (h : (downloadLoop false attempts).result = false) :
    (downloadLoop false attempts).downloadedInc = 0 ∧
    (downloadLoop false attempts).fileOnDisk = false := by
  induction attempts with
  | nil => exact ⟨rfl, rfl⟩
  | cons a rest ih =>
    cases a with
    | success n =>
      rw [downloadLoop_success] at h
      simp at h
    | failure pw =>
      cases rest with
      | nil =>
        rw [downloadLoop_failure_last]
        exact ⟨rfl, rfl⟩
      | cons a2 t =>
        rw [downloadLoop_failure_cons] at h ⊢
        exact ih h

lemma downloadLoop_all_failures (attempts : List FetchAttempt)
    (hne : attempts ≠ [])
    (hall : ∀ a ∈ attempts, ∃ pw, a = FetchAttempt.failure pw) :
    (downloadLoop false attempts).result = false ∧
    (downloadLoop false attempts).failedInc = 1 := by
  induction attempts with
  | nil => exact absurd rfl hne
  | cons a rest ih =>
    obtain ⟨pw, rfl⟩ := hall a (List.mem_cons_self a rest)
    cases rest with
    | nil =>
      rw [downloadLoop_failure_last]
      exact ⟨rfl, rfl⟩
    | cons a2 t =>
      rw [downloadLoop_failure_cons]
      exact ih (by simp) (fun x hx => hall x (List.mem_cons_of_mem _ hx))

lemma buildBatch_sublist (p seen : List String) (l : List Entry) :
    List.Sublist (buildBatch p seen l) l := by
  induction l generalizing seen with
  | nil => simp [buildBatch]
  | cons e rest ih =>
    cases he : e.sha256 with
    | none => simpa [buildBatch, he] using List.Sublist.cons e (ih seen)
    | some h =>
      by_cases hp : h ∈ p
      · simpa [buildBatch, he, hp] using List.Sublist.cons e (ih seen)
      · by_cases hseen : h ∈ seen
        · simpa [buildBatch, he, hp, hseen] using List.Sublist.cons e (ih seen)
        · simpa [buildBatch, he, hp, hseen] using List.Sublist.cons₂ e (ih (h :: seen))

lemma buildBatch_mem {p seen : List String} {l : List Entry} {e : Entry}
    (hmem : e ∈ buildBatch p seen l) :
    ∃ h, e.sha256 = some h ∧ h ∉ p ∧ h ∉ seen := by
  induction l generalizing seen with
  | nil => simp [buildBatch] at hmem
  | cons a rest ih =>
    cases ha : a.sha256 with
    | none =>
      simp only [buildBatch, ha] at hmem
      exact ih hmem
    | some g =>
      by_cases hgp : g ∈ p
      · simp only [buildBatch, ha, hgp, if_true] at hmem
        exact ih hmem
      · by_cases hgs : g ∈ seen
        · simp only [buildBatch, ha, hgp, if_false, hgs, if_true] at hmem
          exact ih hmem
        · simp only [buildBatch, ha, hgp, if_false, hgs, List.mem_cons] at hmem
          rcases hmem with rfl | hmem
          · exact ⟨g, ha, hgp, hgs⟩
          · obtain ⟨h, hsha, hhp, hhs⟩ := ih hmem
            refine ⟨h, hsha, hhp, fun hh => hhs ?_⟩
            exact List.mem_cons_of_mem g hh

lemma buildBatch_hashes_nodup (p : List String) (l : List Entry) (seen : List String) :
    ((buildBatch p seen l).filterMap Entry.sha256).Nodup := by
  induction l generalizing seen with
  | nil => simp [buildBatch]
  | cons a rest ih =>
    cases ha : a.sha256 with
    | none => simpa [buildBatch, ha] using ih seen
    | some g =>
      by_cases hgp : g ∈ p
      · simpa [buildBatch, ha, hgp] using ih seen
      · by_cases hgs : g ∈ seen
        · simpa [buildBatch, ha, hgp, hgs] using ih seen
        · simp only [buildBatch, ha, hgp, if_false, hgs, List.filterMap_cons, ha,
            List.nodup_cons]
          refine ⟨fun hmem => ?_, ih (g :: seen)⟩
          obtain ⟨e, hemem, hesha⟩ := List.mem_filterMap.mp hmem
          obtain ⟨h, hsha, -, hhs⟩ := buildBatch_mem hemem
          rw [hsha] at hesha
          injection hesha with hgh
          exact hhs (hgh ▸ List.mem_cons_self h seen)

lemma buildBatch_complete {p seen : List String} {l : List Entry} {h : String}
    (hp : h ∉ p) (hseen : h ∉ seen) (hex : ∃ e ∈ l, e.sha256 = some h) :
    ∃ e ∈ buildBatch p seen l, e.sha256 = some h := by
  induction l generalizing seen with
  | nil => simp at hex
  | cons a rest ih =>
    obtain ⟨e0, he0, hsha⟩ := hex
    cases ha : a.sha256 with
    | none =>
      have hrest : e0 ∈ rest := by
        rcases List.mem_cons.mp he0 with rfl | hm
        · rw [ha] at hsha; exact absurd hsha (by simp)
        · exact hm
      simp only [buildBatch, ha]
      exact ih hseen ⟨e0, hrest, hsha⟩
    | some g =>
      by_cases hgp : g ∈ p
      · have hrest : e0 ∈ rest := by
          rcases List.mem_cons.mp he0 with rfl | hm
          · rw [ha] at hsha; injection hsha with hgh; exact absurd (hgh ▸ hgp) hp
          · exact hm
        simp only [buildBatch, ha, hgp, if_true]
        exact ih hseen ⟨e0, hrest, hsha⟩
      · by_cases hgs : g ∈ seen
        · have hrest : e0 ∈ rest := by
            rcases List.mem_cons.mp he0 with rfl | hm
            · rw [ha] at hsha; injection hsha with hgh; exact absurd (hgh ▸ hgs) hseen
            · exact hm
          simp only [buildBatch, ha, hgp, if_false, hgs, if_true]
          exact ih hseen ⟨e0, hrest, hsha⟩
        · simp only [buildBatch, ha, hgp, if_false, hgs]
          by_cases hgh : g = h
          · exact ⟨a, List.mem_cons_self a _, by rw [ha, hgh]⟩
          · have hrest : e0 ∈ rest := by
              rcases List.mem_cons.mp he0 with rfl | hm
              · rw [ha] at hsha; injection hsha with hgh2; exact absurd hgh2 hgh
              · exact hm
            have hseen2 : h ∉ g :: seen := by
              intro hc
              rcases List.mem_cons.mp hc with rfl | hc2
              · exact hgh rfl
              · exact hseen hc2
            obtain ⟨e1, he1, hsha1⟩ := ih hseen2 ⟨e0, hrest, hsha⟩
            exact ⟨e1, List.mem_cons_of_mem a he1, hsha1⟩

/-- Run-level invariant: the submitted hashes are pairwise distinct, every
submitted hash is in the processed set, the startup log stays contained in
the processed set, and no submitted hash comes from the startup log. -/
def RunInv (log : List String) (s : RunState) : Prop :=
  s.submitted.Nodup ∧
  (∀ h ∈ s.submitted, h ∈ s.processed_hashes) ∧
  (∀ h ∈ log, h ∈ s.processed_hashes) ∧
  (∀ h ∈ s.submitted, h ∉ log)

lemma submitLoop_inv (log : List String) (m : Option Nat) (env : RunEnv)
    (batch : List Entry) (s : RunState)
    (hinv : RunInv log s)
    (hbatch : ∀ e ∈ batch, ∀ h, e.sha256 = some h → h ∉ s.processed_hashes)
    (hnodup : (batch.filterMap Entry.sha256).Nodup) :
    RunInv log (submitLoop m env batch s) := by
  induction batch generalizing s with
  | nil =>
    simpa only [submitLoop] using hinv
  | cons e rest ih =>
    obtain ⟨hnd, hsp, hlp, hsl⟩ := hinv
    simp only [submitLoop]
    rcases hr : admission m ⟨s.downloaded_count, s.pending_downloads_count, s.should_stop⟩
      with ⟨b, a'⟩
    by_cases hstop : a'.should_stop
    · simp only [hstop, if_true]
      exact ⟨hnd, hsp, hlp, hsl⟩
    · simp only [hstop, if_false, Bool.false_eq_true]
      cases b with
      | false =>
        exact absurd (admission_false_cases hr).2.2 hstop
      | true =>
        simp only [if_true]
        cases hsha : e.sha256 with
        | none =>
          dsimp only
          exact ih _ ⟨hnd, hsp, hlp, hsl⟩
            (fun e' he' h hh => hbatch e' (List.mem_cons_of_mem e he') h hh)
            (by simpa [List.filterMap_cons, hsha] using hnodup)
        | some h =>
          dsimp only
          have hnp : h ∉ s.processed_hashes := hbatch e (List.mem_cons_self e rest) h hsha
          have hnsub : h ∉ s.submitted := fun hc => hnp (hsp h hc)
          have hnlog : h ∉ log := fun hc => hnp (hlp h hc)
          have hnodup2 : ((e :: rest).filterMap Entry.sha256).Nodup := hnodup
          rw [List.filterMap_cons, hsha] at hnodup2
          have hni := List.nodup_cons.mp hnodup2
          refine ih _ ⟨?_, ?_, ?_, ?_⟩ ?_ hni.2
          · dsimp only [applyWorker]
            rw [List.nodup_append]
            refine ⟨hnd, List.nodup_singleton h, ?_⟩
            intro g hg1 hg2
            simp only [List.mem_singleton] at hg2
            exact hnsub (hg2 ▸ hg1)
          · intro g hg
            dsimp only [applyWorker]
            rcases List.mem_append.mp hg with hg1 | hg2
            · exact List.mem_cons_of_mem h (hsp g hg1)
            · simp only [List.mem_singleton] at hg2
              exact hg2 ▸ List.mem_cons_self h _
          · intro g hg
            dsimp only [applyWorker]
            exact List.mem_cons_of_mem h (hlp g hg)
          · intro g hg
            rcases List.mem_append.mp hg with hg1 | hg2
            · exact hsl g hg1
            · simp only [List.mem_singleton] at hg2
              exact hg2 ▸ hnlog
          · intro e' he' g hgsha
            dsimp only [applyWorker]
            intro hc
            rcases List.mem_cons.mp hc with rfl | hc2
            · have : g ∈ rest.filterMap Entry.sha256 :=
                List.mem_filterMap.mpr ⟨e', he', hgsha⟩
              exact hni.1 this
            · exact hbatch e' (List.mem_cons_of_mem e he') g hgsha hc2

lemma runPages_inv {log : List String} (m : Option Nat) (env : RunEnv)
    (fuel page : Nat) (s : RunState) (hinv : RunInv log s) :
    RunInv log (runPages m env fuel page s) := by
  induction fuel generalizing page s with
  | zero => simpa [runPages] using hinv
  | succ n ih =>
    obtain ⟨hnd, hsp, hlp, hsl⟩ := hinv
    simp only [runPages]
    by_cases hstop : s.should_stop
    · simp only [hstop, if_true]
      exact ⟨hnd, hsp, hlp, hsl⟩
    · simp only [hstop, if_false, Bool.false_eq_true]
      rcases hf : (fetch_hashes_page (env.feed page)).page with - | entries
      · exact ⟨hnd, hsp, hlp, hsl⟩
      · cases entries with
        | nil => exact ⟨hnd, hsp, hlp, hsl⟩
        | cons e es =>
          dsimp only
          have hs2 := submitLoop_inv log m env
            (buildPageBatch s.processed_hashes (e :: es))
            { s with
                pagesFetched := s.pagesFetched + 1
                total_hashes_seen := s.total_hashes_seen + (e :: es).length
                should_stop := false }
            ⟨hnd, hsp, hlp, hsl⟩
            (fun e' he' h hh => by
              obtain ⟨g, hg, hgp, -⟩ := buildBatch_mem he'
              rw [hh] at hg
              injection hg with hgg
              exact hgg ▸ hgp)
            (buildBatch_hashes_nodup _ _ _)
          split
          · exact ih _ _ ⟨hnd, hsp, hlp, hsl⟩
          · split
            · exact hs2
            · exact ih _ _ hs2

/-! ### Claim theorems -/

/-- C1 counterexample: under the configured limit `MAX_DOWNLOAD = 1`, the
state in which one admitted task has executed the `downloaded_count += 1`
block of `download_file` but not yet the guarded decrement in the
`finally` block of `process_hash_entry` is reachable, and in that state
`downloaded_count + pending_downloads_count = 2 > 1`: the sum exceeds the
limit between the success record and the in-flight decrement, because the
two updates happen in separate acquisitions of `download_count_lock`. -/
theorem C1_counterexample :
    Reach (some 1) c1Cex ∧
    ¬ ((c1Cex.adm.downloaded_count : Int) + c1Cex.adm.pending_downloads_count
        ≤ (1 : Int)) := by
  constructor
  · have h1 : Step (some 1) Sys.init c1Mid :=
      Step.approve Sys.init
        { downloaded_count := 0, pending_downloads_count := 1, should_stop := false }
        (by decide)
    have h2 : Step (some 1) c1Mid c1Cex :=
      Step.recSuccess c1Mid 0 rfl
    exact Reach.step (Reach.step Reach.init h1) h2
  · decide

/-- C1 (amended): in every reachable state under a configured limit,
`downloaded_count` plus the number of admitted tasks with no recorded
outcome stays at most the limit — hence `downloaded_count` itself never
exceeds the limit — and the observable sum
`downloaded_count + pending_downloads_count` exceeds the limit by at most
the number of tasks sitting between their success record and their
in-flight decrement. -/
theorem C1_amended_invariant (l : Nat) (s : Sys) (h : Reach (some l) s) :
    s.adm.downloaded_count + s.unrecorded ≤ l ∧
    s.adm.downloaded_count ≤ l ∧
    (s.adm.downloaded_count : Int) + s.adm.pending_downloads_count
      ≤ (l : Int) + s.recorded := by
  obtain ⟨hp, hl⟩ := sysInv_reach h
  have hb := hl l rfl
  exact ⟨hb, by omega, by omega⟩

/-- C1 witness: the amended invariant instantiated at the initial state
with limit 1. -/
theorem C1_amended_witness :
    Sys.init.adm.downloaded_count + Sys.init.unrecorded ≤ 1 ∧
    Sys.init.adm.downloaded_count ≤ 1 ∧
    (Sys.init.adm.downloaded_count : Int) + Sys.init.adm.pending_downloads_count
      ≤ (1 : Int) + Sys.init.recorded :=
  C1_amended_invariant 1 Sys.init Reach.init

/-- C2: the admission decision is the single atomic `admission` step: it
returns `true` exactly when the stop flag is down and either no limit is
configured or `downloaded_count + pending_downloads_count` is below the
limit; with the stop flag up it refuses and changes nothing; at or above a
configured limit it refuses and raises the stop flag; and on admission it
increments `pending_downloads_count` and changes nothing else. -/
theorem C2_admission_contract (m : Option Nat) (s : AdmState) :
    ((admission m s).1 = true ↔
      s.should_stop = false ∧
        (m = none ∨ ∃ l, m = some l ∧
          (s.downloaded_count : Int) + s.pending_downloads_count < (l : Int))) ∧
    (s.should_stop = true → admission m s = (false, s)) ∧
    (∀ l, s.should_stop = false → m = some l →
      (s.downloaded_count : Int) + s.pending_downloads_count ≥ (l : Int) →
      admission m s = (false, { s with should_stop := true })) ∧
    ((admission m s).1 = true →
      (admission m s).2 =
        { s with pending_downloads_count := s.pending_downloads_count + 1 }) := by
  refine ⟨⟨?_, ?_⟩, ?_, ?_, ?_⟩
  · intro h
    rcases hr : admission m s with ⟨b, a'⟩
    rw [hr] at h
    dsimp only at h
    subst h
    obtain ⟨hs', -, hlt⟩ := admission_true_cases hr
    refine ⟨hs', ?_⟩
    cases m with
    | none => exact Or.inl rfl
    | some l => exact Or.inr ⟨l, rfl, hlt l rfl⟩
  · rintro ⟨hs', hnone | ⟨l, rfl, hlt⟩⟩
    · subst hnone
      simp [admission, hs']
    · simp [admission, hs',
        show ¬ ((s.downloaded_count : Int) + s.pending_downloads_count ≥ (l : Int))
          from by omega]
  · intro hs'
    simp [admission, hs']
  · intro l hs' hm hge
    subst hm
    simp [admission, hs', hge]
  · intro h
    rcases hr : admission m s with ⟨b, a'⟩
    rw [hr] at h
    dsimp only at h
    subst h
    exact (admission_true_cases hr).2.1

/-- C2 witness: the contract instantiated at concrete states with limit 2:
the state (0 downloaded, 0 pending, not stopped) is admitted, and the
state (1 downloaded, 1 pending, not stopped) is refused with the stop flag
raised. -/
theorem C2_admission_witness :
    (admission (some 2) ⟨0, 0, false⟩).1 = true ∧
    admission (some 2) ⟨1, 1, false⟩ = (false, ⟨1, 1, true⟩) := by
  constructor
  · exact (C2_admission_contract (some 2) ⟨0, 0, false⟩).1.mpr
      ⟨rfl, Or.inr ⟨2, rfl, by decide⟩⟩
  · exact (C2_admission_contract (some 2) ⟨1, 1, false⟩).2.2.1 2 rfl rfl (by decide)

/-- C3 counterexample: for an admitted record whose destination file
already exists, the worker makes no byte-fetch call and the `finally`
block decrements in-flight, but `downloaded_count` is not incremented (the
skipped-existing statistic is incremented instead) — refuting the claim
that the succeeded counter is incremented and that the file consumes a
unit of the limit like a fresh download. -/
theorem C3_counterexample :
    (process_hash_entry (some "aa") c3Env).fetchCalls = 0 ∧
    (process_hash_entry (some "aa") c3Env).decrementsPending = true ∧
    (process_hash_entry (some "aa") c3Env).skippedInc = 1 ∧
    ¬ (process_hash_entry (some "aa") c3Env).downloadedInc = 1 := by
  refine ⟨rfl, rfl, rfl, by decide⟩

/-- C3 (amended): for every admitted record with a resolvable link whose
destination file already exists on disk, the worker performs no byte-fetch
call, appends the hash to the durable log, and the `finally` block
decrements in-flight; but the outcome is recorded in
`skipped_existing_count`, not in `downloaded_count`, so the already-present
file occupies limit capacity only while in flight and does not permanently
consume a unit of the configured limit. -/
theorem C3_already_present (hsh url : String) (la : List LinkAttempt)
    (fa : List FetchAttempt) (hlink : (get_download_link la).link = some url) :
    (process_hash_entry (some hsh) ⟨la, true, fa⟩).fetchCalls = 0 ∧
    (process_hash_entry (some hsh) ⟨la, true, fa⟩).downloadedInc = 0 ∧
    (process_hash_entry (some hsh) ⟨la, true, fa⟩).failedInc = 0 ∧
    (process_hash_entry (some hsh) ⟨la, true, fa⟩).skippedInc = 1 ∧
    (process_hash_entry (some hsh) ⟨la, true, fa⟩).savedToLog = true ∧
    (process_hash_entry (some hsh) ⟨la, true, fa⟩).decrementsPending = true := by
  simp [process_hash_entry, hlink, download_file]

/-- C3 witness: the amended behaviour at a concrete one-attempt
environment with the destination file present. -/
theorem C3_amended_witness :
    (process_hash_entry (some "aa")
      ⟨[LinkAttempt.ok (some "u")], true, []⟩).downloadedInc = 0 ∧
    (process_hash_entry (some "aa")
      ⟨[LinkAttempt.ok (some "u")], true, []⟩).skippedInc = 1 := by
  have h := C3_already_present "aa" "u" [LinkAttempt.ok (some "u")] [] rfl
  exact ⟨h.2.1, h.2.2.2.1⟩

/-- C4 counterexample: a 404 link resolution makes exactly one resolution
attempt (no retry even though budget remains and a retry would have
succeeded) and zero byte-fetch attempts, and the `finally` block
decrements in-flight, but `failed_count` is not incremented — refuting the
claim that the failed counter is incremented. -/
theorem C4_counterexample :
    (process_hash_entry (some "bb") c4Env).linkCalls = 1 ∧
    (process_hash_entry (some "bb") c4Env).fetchCalls = 0 ∧
    (process_hash_entry (some "bb") c4Env).decrementsPending = true ∧
    ¬ (process_hash_entry (some "bb") c4Env).failedInc = 1 := by
  refine ⟨rfl, rfl, rfl, by decide⟩

/-- C4 (amended): for every hash whose link resolution returns HTTP 404 on
the first attempt, the resolution is not retried (exactly one resolution
call regardless of the remaining budget), zero byte-fetch attempts are
made, nothing is appended to the processed log, and the only record of the
outcome is the `finally` decrement of in-flight: neither `failed_count`
nor `downloaded_count` is touched on this path. -/
theorem C4_not_found_path (hsh : String) (rest : List LinkAttempt)
    (fe : Bool) (fa : List FetchAttempt) :
    (process_hash_entry (some hsh) ⟨LinkAttempt.notFound :: rest, fe, fa⟩).linkCalls = 1 ∧
    (process_hash_entry (some hsh) ⟨LinkAttempt.notFound :: rest, fe, fa⟩).fetchCalls = 0 ∧
    (process_hash_entry (some hsh) ⟨LinkAttempt.notFound :: rest, fe, fa⟩).downloadedInc = 0 ∧
    (process_hash_entry (some hsh) ⟨LinkAttempt.notFound :: rest, fe, fa⟩).failedInc = 0 ∧
    (process_hash_entry (some hsh) ⟨LinkAttempt.notFound :: rest, fe, fa⟩).savedToLog = false ∧
    (process_hash_entry (some hsh) ⟨LinkAttempt.notFound :: rest, fe, fa⟩).decrementsPending = true := by
  simp [process_hash_entry, get_download_link_notFound]

/-- C5: the submission batch built from one fetched page is exactly the
unique, not-yet-processed subset of the page: a sublist of the page in
feed order, every batch entry carries a hash that is present and not in
the processed set, the batch hashes are pairwise distinct (intra-page
dedup), and every eligible page hash contributes a batch entry; and across
a whole run, every hash is submitted at most once and no hash from the
startup log is ever submitted. -/
theorem C5_page_batch (processed : List String) (entries : List Entry)
    (m : Option Nat) (env : RunEnv) (log : List String) (fuel : Nat) :
    List.Sublist (buildPageBatch processed entries) entries ∧
    (∀ e ∈ buildPageBatch processed entries, ∃ h, e.sha256 = some h ∧ h ∉ processed) ∧
    ((buildPageBatch processed entries).filterMap Entry.sha256).Nodup ∧
    (∀ h : String, h ∉ processed → (∃ e ∈ entries, e.sha256 = some h) →
      ∃ e ∈ buildPageBatch processed entries, e.sha256 = some h) ∧
    (runPages m env fuel 1 (initRunState m log)).submitted.Nodup ∧
    (∀ h ∈ (runPages m env fuel 1 (initRunState m log)).submitted, h ∉ log) := by
  have hinv : RunInv log (initRunState m log) := by
    refine ⟨List.nodup_nil, ?_, ?_, ?_⟩ <;> simp [initRunState]
  have hrun := runPages_inv m env fuel 1 (initRunState m log) hinv
  refine ⟨buildBatch_sublist processed [] entries,
    fun e he => ?_,
    buildBatch_hashes_nodup processed entries [],
    fun h hp hex => buildBatch_complete hp (by simp) hex,
    hrun.1, hrun.2.2.2⟩
  obtain ⟨h, hs, hp, -⟩ := buildBatch_mem he
  exact ⟨h, hs, hp⟩

/-- C5 witness: the batch of a concrete page against processed set
containing the hash a drops the processed entry, the hash-less entry and
the intra-page duplicate, and keeps one entry for the eligible hash c. -/
theorem C5_batch_witness :
    buildPageBatch ["a"]
        [⟨some "a"⟩, ⟨none⟩, ⟨some "b"⟩, ⟨some "b"⟩, ⟨some "c"⟩]
      = [⟨some "b"⟩, ⟨some "c"⟩] ∧
    ∃ e ∈ buildPageBatch ["a"]
        [⟨some "a"⟩, ⟨none⟩, ⟨some "b"⟩, ⟨some "b"⟩, ⟨some "c"⟩],
      e.sha256 = some "c" := by
  refine ⟨rfl, ?_⟩
  exact (C5_page_batch ["a"]
      [⟨some "a"⟩, ⟨none⟩, ⟨some "b"⟩, ⟨some "b"⟩, ⟨some "c"⟩]
      none c10Env [] 0).2.2.2.1 "c" (by decide)
    ⟨⟨some "c"⟩, by decide, rfl⟩

/-- C6: with `MAX_DOWNLOAD = 0` the stop flag is set before pagination
begins, `fetch_and_process_hashes` is skipped entirely, no feed page is
fetched, no worker task is ever submitted, and the summary report is still
produced. -/
theorem C6_limit_zero (env : RunEnv) (log : List String) (fuel : Nat) :
    (initRunState (some 0) log).should_stop = true ∧
    (mainRun (some 0) env log fuel).fetchStarted = false ∧
    (mainRun (some 0) env log fuel).final.pagesFetched = 0 ∧
    (mainRun (some 0) env log fuel).final.submitted = [] ∧
    (mainRun (some 0) env log fuel).reportProduced = true :=
  ⟨rfl, rfl, rfl, rfl, rfl⟩

/-- C7 counterexample: with the full retry budget remaining and recovery
available from the second attempt onward, an undecodable feed payload ends
the page fetch after a single attempt with a definitive failure, while a
network error in the same position is retried and succeeds — refuting the
claim that a malformed payload is retried up to the configured retry
count. -/
theorem C7_counterexample :
    fetch_hashes_page c7Attempts = ⟨none, 1⟩ ∧
    fetch_hashes_page (FeedAttempt.reqError :: c7Attempts.tail) = ⟨some [], 2⟩ :=
  ⟨rfl, rfl⟩

/-- C7 (amended): a feed page whose payload cannot be decoded is logged
and treated as an immediately definitive failure for the whole page fetch
— it consumes no retries — while a request error is retried against the
remaining budget. -/
theorem C7_decode_error_terminal (rest : List FeedAttempt) :
    fetch_hashes_page (FeedAttempt.decodeError :: rest) = ⟨none, 1⟩ ∧
    (rest ≠ [] → fetch_hashes_page (FeedAttempt.reqError :: rest) =
      ⟨(fetch_hashes_page rest).page, (fetch_hashes_page rest).attemptsMade + 1⟩) := by
  refine ⟨fetch_hashes_page_decodeError rest, ?_⟩
  intro h
  cases rest with
  | nil => exact absurd rfl h
  | cons a t => rfl

/-- C7 witness: the amended behaviour at a one-element and a two-element
attempt list. -/
theorem C7_amended_witness :
    fetch_hashes_page [FeedAttempt.decodeError] = ⟨none, 1⟩ ∧
    fetch_hashes_page [FeedAttempt.reqError, FeedAttempt.ok (some [])]
      = ⟨some [], 2⟩ := by
  refine ⟨(C7_decode_error_terminal []).1, ?_⟩
  rw [(C7_decode_error_terminal [FeedAttempt.ok (some [])]).2 (by simp)]
  rfl

/-- C8: in the byte-fetch retry loop started with no destination file,
every attempt begins with no partial file on disk (each mid-stream failure
deletes the partially written file before the next attempt or before
giving up); if some attempt succeeds within the budget, exactly one
success is recorded and the final file exists; if the loop ends in failure
no success was recorded and the destination file does not exist; and when
every attempt of a nonempty budget fails, the failure is recorded exactly
once in `failed_count`. -/
theorem C8_retry_cleanup (attempts : List FetchAttempt) :
    (∀ b ∈ (downloadLoop false attempts).diskAtFetchStart, b = false) ∧
    ((downloadLoop false attempts).result = true →
      (downloadLoop false attempts).downloadedInc = 1 ∧
      (downloadLoop false attempts).fileOnDisk = true) ∧
    ((downloadLoop false attempts).result = false →
      (downloadLoop false attempts).downloadedInc = 0 ∧
      (downloadLoop false attempts).fileOnDisk = false) ∧
    (attempts ≠ [] → (∀ a ∈ attempts, ∃ pw, a = FetchAttempt.failure pw) →
      (downloadLoop false attempts).result = false ∧
      (downloadLoop false attempts).failedInc = 1) :=
  ⟨downloadLoop_disk_false attempts, downloadLoop_result_true attempts,
    downloadLoop_result_false attempts, downloadLoop_all_failures attempts⟩

/-- C8 witness: the scenario of the spec — two mid-stream failures, then a
success on the third attempt — records exactly one success, leaves the
final file on disk, and every attempt starts with no partial file. -/
theorem C8_retry_witness :
    (downloadLoop false c8Scenario).downloadedInc = 1 ∧
    (downloadLoop false c8Scenario).fileOnDisk = true ∧
    (downloadLoop false c8Scenario).diskAtFetchStart = [false, false, false] := by
  have h := (C8_retry_cleanup c8Scenario).2.1 rfl
  exact ⟨h.1, h.2, rfl⟩

/-- C9: `pending_downloads_count` is never negative in any reachable
state; it always equals the number of admitted tasks not yet past their
`finally` decrement, so once every admitted task has completed it is zero;
and the worker decrements it exactly once on every exit path of a task
with a hash (success, failure, skip, or no recorded outcome), and never
for an entry whose hash is missing (for which it was never incremented). -/
theorem C9_pending_counter (m : Option Nat) (s : Sys) (hreach : Reach m s) :
    0 ≤ s.adm.pending_downloads_count ∧
    (s.unrecorded = 0 → s.recorded = 0 → s.adm.pending_downloads_count = 0) ∧
    (∀ (hsh : String) (env : WorkerEnv),
      (process_hash_entry (some hsh) env).decrementsPending = true) ∧
    (∀ env : WorkerEnv, (process_hash_entry none env).decrementsPending = false) := by
  obtain ⟨hp, -⟩ := sysInv_reach hreach
  refine ⟨by omega, fun h1 h2 => by omega, ?_, fun env => rfl⟩
  intro hsh env
  simp only [process_hash_entry]
  cases hl : (get_download_link env.linkAttempts).link with
  | none => rfl
  | some u => rfl

/-- C9 witness: the statement at the initial state and a concrete worker
environment whose link resolution fails. -/
theorem C9_pending_witness :
    0 ≤ Sys.init.adm.pending_downloads_count ∧
    (process_hash_entry (some "cc") ⟨[], false, []⟩).decrementsPending = true := by
  have h := C9_pending_counter none Sys.init Reach.init
  exact ⟨h.1, h.2.2.1 "cc" ⟨[], false, []⟩⟩

/-- C10: a decodable feed response that lacks a proper data list yields
the same fetch result as a genuinely empty page — an empty record list
after exactly one attempt, with no retry — and the page loop then stops at
that page exactly as on feed exhaustion: the run state is unchanged except
for the page-fetch count, and the feed-error flag is not raised. -/
theorem C10_malformed_structure (m : Option Nat) (env : RunEnv)
    (fuel page : Nat) (s : RunState) (rest : List FeedAttempt)
    (hfeed : env.feed page = FeedAttempt.ok none :: rest)
    (hstop : s.should_stop = false) :
    fetch_hashes_page (env.feed page) = ⟨some [], 1⟩ ∧
    fetch_hashes_page (env.feed page) =
      fetch_hashes_page (FeedAttempt.ok (some []) :: rest) ∧
    runPages m env (fuel + 1) page s =
      { s with pagesFetched := s.pagesFetched + 1 } ∧
    (runPages m env (fuel + 1) page s).feedError = s.feedError := by
  have h1 : fetch_hashes_page (env.feed page) = ⟨some [], 1⟩ := by
    rw [hfeed]
    exact fetch_hashes_page_malformed rest
  have h3 : runPages m env (fuel + 1) page s =
      { s with pagesFetched := s.pagesFetched + 1 } := by
    simp only [runPages, hstop, if_false, Bool.false_eq_true, h1]
  refine ⟨h1, ?_, h3, by rw [h3]⟩
  rw [h1, fetch_hashes_page_emptyData]

/-- C10 witness: one page loop iteration over an environment whose page
fetch decodes without a data list stops immediately with only the
page-fetch counter advanced. -/
theorem C10_malformed_structure_witness :
    runPages none c10Env 1 1 (initRunState none []) =
      { initRunState none [] with pagesFetched := 1 } := by
  have h := C10_malformed_structure none c10Env 0 1 (initRunState none [])
    [] rfl rfl
  exact h.2.2.1

end DownloadSamples
